import Mathlib

/-!
# Verification of the proxprint print-layout and card-resolution engine

Shallow embedding of `src/app.js` (second app revision, the one using the
local card database) and of the claims about it.  Physical geometry is
modelled over `ℚ` (the JavaScript numbers involved are small dyadic
rationals such as 10.5 and 16.5, on which JS float arithmetic is exact).
-/

namespace ProxPrint

/-! ## Geometry constants (src/app.js:544-554) -/

def CARD_W_MM : ℚ := 63
def CARD_H_MM : ℚ := 88
def PAGE_W_MM : ℚ := 210
def PAGE_H_MM : ℚ := 297

def COLS : Nat := 3
def ROWS : Nat := 3
def CARDS_PER_PAGE : Nat := COLS * ROWS

/-- `MARGIN_X = (PAGE_W_MM - COLS * CARD_W_MM) / 2` (= 10.5 mm). -/
def MARGIN_X : ℚ := (PAGE_W_MM - (COLS : ℚ) * CARD_W_MM) / 2

/-- `MARGIN_Y = (PAGE_H_MM - ROWS * CARD_H_MM) / 2` (= 16.5 mm). -/
def MARGIN_Y : ℚ := (PAGE_H_MM - (ROWS : ℚ) * CARD_H_MM) / 2

def PREVIEW_SCALE : ℚ := 5 / 2

/-- `Math.ceil(a / b)` for natural `a`, positive natural `b`. -/
def ceilDiv (a b : Nat) : Nat := (a + b - 1) / b

/-! ## Cut-line geometry -/

/-- One stroked line segment, in the coordinates of the backend that strokes
it (`canvas` pixels for the preview, millimetres for the PDF). -/
structure Seg where
  x1 : ℚ
  y1 : ℚ
  x2 : ℚ
  y2 : ℚ
deriving DecidableEq

/-- The `cutLines` setting: `'none' | 'corners' | 'grid'` (src/app.js:582). -/
inductive CutMode where
  | none
  | corners
  | grid
deriving DecidableEq

/-- Shallow embedding of `drawCutLinesPDF` (src/app.js:1199-1249): the list of
line segments stroked on one exported page, in stroke order, in millimetres.
Colour, line width and dash pattern are pen style, not geometry, and are not
modelled.  `numImages` is `allImages.length`; `startIdx` is the page's first
image index.  `cardsOnPage` uses truncated `ℕ` subtraction; the caller
(`generatePDF`) only passes `startIdx < numImages`. -/
def drawCutLinesPDF (mode : CutMode) (numImages startIdx : Nat) : List Seg :=
  let cardsOnPage := min (numImages - startIdx) CARDS_PER_PAGE
  let filledCols := min cardsOnPage COLS
  let filledRows := ceilDiv cardsOnPage COLS
  match mode with
  | .grid =>
      let lastRowCols := cardsOnPage - (filledRows - 1) * COLS
      ((List.range (filledRows + 1)).map (fun (row : Nat) =>
        let y := MARGIN_Y + (row : ℚ) * CARD_H_MM
        let cols := if row = filledRows then lastRowCols else filledCols
        Seg.mk MARGIN_X y (MARGIN_X + (cols : ℚ) * CARD_W_MM) y))
      ++ ((List.range (filledCols + 1)).map (fun (col : Nat) =>
        let x := MARGIN_X + (col : ℚ) * CARD_W_MM
        let rowSpan := if col ≤ lastRowCols then filledRows else filledRows - 1
        Seg.mk x MARGIN_Y x (MARGIN_Y + (rowSpan : ℚ) * CARD_H_MM)))
  | .corners =>
      let markLen : ℚ := 4
      (List.range cardsOnPage).flatMap (fun (i : Nat) =>
        let row := i / COLS
        let col := i % COLS
        let x1 := MARGIN_X + (col : ℚ) * CARD_W_MM
        let y1 := MARGIN_Y + (row : ℚ) * CARD_H_MM
        let x2 := x1 + CARD_W_MM
        let y2 := y1 + CARD_H_MM
        [Seg.mk (x1 - markLen) y1 x1 y1,
         Seg.mk x1 (y1 - markLen) x1 y1,
         Seg.mk x2 y1 (x2 + markLen) y1,
         Seg.mk x2 (y1 - markLen) x2 y1,
         Seg.mk (x1 - markLen) y2 x1 y2,
         Seg.mk x1 y2 x1 (y2 + markLen),
         Seg.mk x2 y2 (x2 + markLen) y2,
         Seg.mk x2 y2 x2 (y2 + markLen)])
  | .none => []

/-- Shallow embedding of `drawCutLinesCanvas` (src/app.js:1108-1154): the list
of segments stroked on one preview canvas, in stroke order, in canvas pixels.
`s` is the scale factor the caller passes (always `PREVIEW_SCALE`). -/
def drawCutLinesCanvas (s : ℚ) (mode : CutMode) (numImages startIdx : Nat) :
    List Seg :=
  let cardsOnPage := min (numImages - startIdx) CARDS_PER_PAGE
  let filledCols := min cardsOnPage COLS
  let filledRows := ceilDiv cardsOnPage COLS
  match mode with
  | .grid =>
      let lastRowCols := cardsOnPage - (filledRows - 1) * COLS
      ((List.range (filledRows + 1)).map (fun (row : Nat) =>
        let y := (MARGIN_Y + (row : ℚ) * CARD_H_MM) * s
        let cols := if row = filledRows then lastRowCols else filledCols
        Seg.mk (MARGIN_X * s) y ((MARGIN_X + (cols : ℚ) * CARD_W_MM) * s) y))
      ++ ((List.range (filledCols + 1)).map (fun (col : Nat) =>
        let x := (MARGIN_X + (col : ℚ) * CARD_W_MM) * s
        let rowSpan := if col ≤ lastRowCols then filledRows else filledRows - 1
        Seg.mk x (MARGIN_Y * s) x ((MARGIN_Y + (rowSpan : ℚ) * CARD_H_MM) * s)))
  | .corners =>
      let markLen : ℚ := 4 * s
      (List.range cardsOnPage).flatMap (fun (i : Nat) =>
        let row := i / COLS
        let col := i % COLS
        let x1 := (MARGIN_X + (col : ℚ) * CARD_W_MM) * s
        let y1 := (MARGIN_Y + (row : ℚ) * CARD_H_MM) * s
        let x2 := x1 + CARD_W_MM * s
        let y2 := y1 + CARD_H_MM * s
        [Seg.mk (x1 - markLen) y1 x1 y1,
         Seg.mk x1 (y1 - markLen) x1 y1,
         Seg.mk x2 y1 (x2 + markLen) y1,
         Seg.mk x2 (y1 - markLen) x2 y1,
         Seg.mk (x1 - markLen) y2 x1 y2,
         Seg.mk x1 y2 x1 (y2 + markLen),
         Seg.mk x2 y2 (x2 + markLen) y2,
         Seg.mk x2 y2 x2 (y2 + markLen)])
  | .none => []

/-- Scaling a segment by a uniform factor, as the canvas backend does to every
millimetre coordinate. -/
def scaleSeg (s : ℚ) (g : Seg) : Seg :=
  Seg.mk (g.x1 * s) (g.y1 * s) (g.x2 * s) (g.y2 * s)

/-! ## Pagination -/

/-- `renderPreview` page count: `Math.ceil(allImages.length / CARDS_PER_PAGE)`
(src/app.js:1044). -/
def renderPreviewPageCount (numImages : Nat) : Nat :=
  ceilDiv numImages CARDS_PER_PAGE

/-- Shallow embedding of the card-placement loop of `drawPage`
(src/app.js:1085-1101).  The JS `break` ends only the inner column loop, so
each row places the prefix of its columns whose image index is still in
range.  Returns `(row, col, idx)` triples in placement order, where `idx` is
the index into `allImages` drawn at grid cell `(row, col)`. -/
def drawPagePlacedCells (numImages pageIndex : Nat) : List (Nat × Nat × Nat) :=
  let startIdx := pageIndex * CARDS_PER_PAGE
  (List.range ROWS).flatMap (fun row =>
    ((List.range COLS).takeWhile
        (fun col => startIdx + row * COLS + col < numImages)).map
      (fun col => (row, col, startIdx + row * COLS + col)))

/-- `generatePDF` page count: `Math.ceil(allImages.length / CARDS_PER_PAGE)`
(src/app.js:1174). -/
def generatePDFPageCount (numImages : Nat) : Nat :=
  ceilDiv numImages CARDS_PER_PAGE

/-- Shallow embedding of the image-placement loop of `generatePDF`
(src/app.js:1180-1189): the cells `(row, col, idx)` that receive an image on
page `p`, in placement order.  The loop runs `i` from `0` to
`CARDS_PER_PAGE - 1` and breaks at the first `i` with `startIdx + i` out of
range. -/
def generatePDFPlacedCells (numImages p : Nat) : List (Nat × Nat × Nat) :=
  let startIdx := p * CARDS_PER_PAGE
  ((List.range CARDS_PER_PAGE).takeWhile (fun i => startIdx + i < numImages)).map
    (fun i => (i / COLS, i % COLS, startIdx + i))

/-! ## Claim-side grid description (for C1)

The following definitions transcribe the SPEC's wording of the grid
cut-guide ("horizontal line `row` spans columns `[0, k)`", "vertical line
`col` spans rows `[0, k)`", with the asymmetric exceptions), to be compared
with `drawCutLinesPDF`. -/

/-- x-coordinate of the vertical grid boundary after `col` column widths. -/
def colX (col : Nat) : ℚ := MARGIN_X + (col : ℚ) * CARD_W_MM

/-- y-coordinate of the horizontal grid boundary after `row` row heights. -/
def rowY (row : Nat) : ℚ := MARGIN_Y + (row : ℚ) * CARD_H_MM

/-- The horizontal cut line at row boundary `row`, spanning columns
`[0, cols)`. -/
def hLineSpan (row cols : Nat) : Seg :=
  Seg.mk (colX 0) (rowY row) (colX cols) (rowY row)

/-- The vertical cut line at column boundary `col`, spanning rows
`[0, rows)`. -/
def vLineSpan (col rows : Nat) : Seg :=
  Seg.mk (colX col) (rowY 0) (colX col) (rowY rows)

/-- The grid cut-guide segments as the spec describes them: with
`filledCols = min(cardsOnPage, 3)`, `filledRows = ceil(cardsOnPage/3)`,
`lastRowCols = cardsOnPage - (filledRows-1)*3`, horizontal line `row`
(`0..filledRows` inclusive) spans columns `[0, filledCols)` except the final
one (`row = filledRows`), which spans `[0, lastRowCols)`; vertical line
`col` (`0..filledCols` inclusive) spans rows `[0, filledRows)` except
columns beyond `lastRowCols`, which stop one row early at
`[0, filledRows-1)`. -/
def claimedGridSegments (cardsOnPage : Nat) : List Seg :=
  let filledCols := min cardsOnPage 3
  let filledRows := ceilDiv cardsOnPage 3
  let lastRowCols := cardsOnPage - (filledRows - 1) * 3
  ((List.range (filledRows + 1)).map (fun (row : Nat) =>
    hLineSpan row (if row = filledRows then lastRowCols else filledCols)))
  ++ ((List.range (filledCols + 1)).map (fun (col : Nat) =>
    vLineSpan col (if lastRowCols < col then filledRows - 1 else filledRows)))

/-! ## Input parser (src/app.js:668-679)

The per-line pattern is the JS regex `^(\d+)?\s*(.*?)(?:\s*\[(\w+)\])?\s*$`
applied to the trimmed line.  The regex matches every string: the lazy
middle group can absorb any remainder, so the greedy `(\d+)?` always keeps
the maximal digit prefix, the following `\s*` the maximal whitespace run,
and the lazy `(.*?)` takes the shortest prefix whose remainder matches the
optional bracketed-set tail (tried first, since the optional group is
greedy) or trailing whitespace.  `\s` is modelled by `Char.isWhitespace`
and `\w` by ASCII alphanumerics plus underscore, which agree with the JS
classes on the ASCII inputs the program handles. -/

/-- JS `\w` word characters, `[A-Za-z0-9_]`. -/
def isWordChar (c : Char) : Bool := c.isAlphanum || c = '_'

/-- JS `String.prototype.toLowerCase`, character-wise (ASCII). -/
def jsToLower (s : String) : String := String.mk (s.toList.map Char.toLower)

/-- JS `String.prototype.toUpperCase`, character-wise (ASCII). -/
def jsToUpper (s : String) : String := String.mk (s.toList.map Char.toUpper)

/-- JS `String.prototype.split('\n')` on character lists: boundary
separators produce empty pieces, `split` of the empty string is `[""]`. -/
def splitLines : List Char → List (List Char)
  | [] => [[]]
  | c :: rest =>
      if c = '\n' then [] :: splitLines rest
      else
        match splitLines rest with
        | [] => [[c]]
        | l :: ls => (c :: l) :: ls

/-- JS `String.prototype.trim`, modelled on character lists. -/
def trimChars (cs : List Char) : List Char :=
  ((cs.dropWhile Char.isWhitespace).reverse.dropWhile Char.isWhitespace).reverse

/-- The regex tail `\s*\[(\w+)\]\s*$`: succeeds iff the whole remaining
input is optional whitespace, a bracketed nonempty word, and optional
trailing whitespace; returns the captured word. -/
def bracketTail (cs : List Char) : Option (List Char) :=
  match cs.dropWhile Char.isWhitespace with
  | [] => none
  | c :: rest =>
      if c = '[' then
        let w := rest.takeWhile isWordChar
        let rest2 := rest.dropWhile isWordChar
        if w.isEmpty then none
        else
          match rest2 with
          | [] => none
          | c2 :: rest3 =>
              if c2 = ']' then
                (if rest3.all Char.isWhitespace then some w else none)
              else none
      else none

/-- The lazy split `(.*?)(?:\s*\[(\w+)\])?\s*$`: scanning left to right, the
name group takes the shortest prefix whose remainder matches the bracketed
tail (tried first) or is all whitespace.  Returns the name characters and
the captured set-code word, if any. -/
def lazySplit : List Char → List Char × Option (List Char)
  | [] => ([], none)
  | c :: rest =>
      match bracketTail (c :: rest) with
      | some w => ([], some w)
      | none =>
          if (c :: rest).all Char.isWhitespace then ([], none)
          else
            let p := lazySplit rest
            (c :: p.1, p.2)

/-- `parseInt(ds, 10)` on an all-digit string. -/
def natFromDigits (ds : List Char) : Nat :=
  ds.foldl (fun a c => a * 10 + (c.toNat - Char.toNat '0')) 0

/-- One parsed input line: `{ qty, name, set }` (spec: `ParsedEntry`). -/
structure ParsedEntry where
  qty : Nat
  name : String
  set : Option String
deriving DecidableEq

/-- One line through `parseInput`'s regex match and postprocessing
(src/app.js:670-678): `qty = parseInt(m[1], 10) || 1` (so a missing,
non-numeric or zero quantity becomes 1), name `m[2].trim()`, set `m[3]`
uppercased.  Returns `none` when the name group is empty after trimming
(the line is dropped). -/
def parseLine (line : String) : Option ParsedEntry :=
  let cs := trimChars line.toList
  let digits := cs.takeWhile Char.isDigit
  let rest := (cs.dropWhile Char.isDigit).dropWhile Char.isWhitespace
  let p := lazySplit rest
  let nm := trimChars p.1
  if nm.isEmpty then none
  else
    let v := natFromDigits digits
    some { qty := if digits.isEmpty then 1 else if v = 0 then 1 else v
           name := String.mk nm
           set := p.2.map (fun w => jsToUpper (String.mk w)) }

/-- `parseInput` (src/app.js:668-679): split into lines, drop blank lines,
run each through the regex, drop lines with an empty name group. -/
def parseInput (text : String) : List ParsedEntry :=
  (((splitLines text.toList).map String.mk).filter
    (fun l => !(trimChars l.toList).isEmpty)).filterMap parseLine

/-! ## Card records, the index, and lookup (src/app.js:596-665) -/

/-- One record of `data/cards.json` as built by `scripts/sync-cards.js`:
`{ n, id, s, cn, o, d }` — name, Scryfall id, set code, collector number,
oracle id, double-faced flag (`1` or absent in JSON, a `Bool` here). -/
structure Card where
  n : String
  id : String
  s : String
  cn : String
  o : Option String
  d : Bool
deriving DecidableEq

/-- The `cardDB` name index built by `loadCardDB` (src/app.js:607-615): a
map from lowercased name to the records with that name, in dataset order,
modelled as a total function defaulting to `[]` (a JS `Map.get` miss). -/
def buildByName (cards : List Card) : String → List Card :=
  cards.foldl (fun db card =>
    let key := jsToLower card.n
    fun k => if k = key then db k ++ [card] else db k)
    (fun _ => [])

/-- The `oracleIndex` built by `loadCardDB` (src/app.js:617-621): records
keyed by oracle id, skipping records without one. -/
def buildOracleIndex (cards : List Card) : String → List Card :=
  cards.foldl (fun idx card =>
    match card.o with
    | some oid => fun k => if k = oid then idx k ++ [card] else idx k
    | none => idx)
    (fun _ => [])

/-- `lookupCard` (src/app.js:646-659).  `db = none` models `cardDB === null`
(database never loaded).  With a set code: the first record of the name
bucket whose stored set code equals the lowercased query, else `null` — no
fallback.  Without: the bucket's first record. -/
def lookupCard (db : Option (String → List Card)) (name : String)
    (set : Option String) : Option Card :=
  match db with
  | none => none
  | some byName =>
      let found := byName (jsToLower name)
      if found.isEmpty then none
      else
        match set with
        | some s => found.find? (fun c => c.s = jsToLower s)
        | none => found.head?

/-- `getVariants` (src/app.js:662-665): all records sharing an oracle id,
`[]` when the oracle index is unavailable or the id is absent. -/
def getVariants (oracleIndex : Option (String → List Card))
    (oracleId : Option String) : List Card :=
  match oracleIndex, oracleId with
  | some idx, some oid => idx oid
  | _, _ => []

/-! ## Remote fallback and per-entry resolution (src/app.js:682-800) -/

/-- One face object of a Scryfall API response; only the presence of its
`image_uris` matters to the code. -/
structure ApiFace where
  image_uris : Bool
deriving DecidableEq

/-- The fields of a Scryfall `cards/named` response that `loadCards`
reads. -/
structure ApiCard where
  name : String
  id : String
  set : String
  collector_number : String
  oracle_id : Option String
  card_faces : Option (List ApiFace)
deriving DecidableEq

/-- Outcome of the remote HTTP call: a card, or an error body whose
`details` field may be absent. -/
inductive RemoteResult where
  | ok (card : ApiCard)
  | err (details : Option String)
deriving DecidableEq

/-- The generic not-found message `fetchCardFromAPI` throws when the
response body has no `details`:
`Card not found: "<name>"` plus ` [<SET>]` when a set was given. -/
def notFoundMessage (name : String) (set : Option String) : String :=
  "Card not found: \"" ++ name ++ "\"" ++
    (match set with
     | some st => " [" ++ st ++ "]"
     | none => "")

/-- `fetchCardFromAPI` (src/app.js:682-691), with the network modelled as
an oracle `remote`: on a non-ok response it throws `body.details` when
present, else the generic not-found message. -/
def fetchCardFromAPI (remote : String → Option String → RemoteResult)
    (name : String) (set : Option String) : Except String ApiCard :=
  match remote name set with
  | .ok c => .ok c
  | .err details => .error (details.getD (notFoundMessage name set))

/-- The synthetic record `loadCards` builds from an API response
(src/app.js:767-774): the double-faced flag is set iff the response has
`card_faces` and some face carries `image_uris`. -/
def syntheticCard (apiCard : ApiCard) : Card :=
  { n := apiCard.name
    id := apiCard.id
    s := apiCard.set
    cn := apiCard.collector_number
    o := apiCard.oracle_id
    d := match apiCard.card_faces with
         | some faces => faces.any (fun f => f.image_uris)
         | none => false }

/-- One resolved line item (spec: `CardSlot`), as pushed by `loadCards`
(src/app.js:792-799). -/
structure CardSlot where
  name : String
  qty : Nat
  oracleId : Option String
  selected : Option Card
  variants : List Card
  error : Option String
deriving DecidableEq

/-- The warning `loadCards` logs on the set-mismatch fallback
(src/app.js:758). -/
def setMismatchWarning (entryName entrySet : String) (substituted : Card) :
    String :=
  "\"" ++ entryName ++ "\" not found in set [" ++ entrySet ++ "], using " ++
    jsToUpper substituted.s

/-- Result of resolving one entry: the pushed slot, the messages passed to
`addError` while processing it (in order), and whether the remote API was
queried. -/
structure ResolveOutput where
  slot : CardSlot
  warnings : List String
  remoteQueried : Bool

/-- Step 2 of resolution (src/app.js:755-760): if step 1 found nothing, the
database is ready and a set was given, retry by name only and log a warning
on success.  Returns the (possibly) selected card and the warnings logged. -/
def setFallback (db : Option (String → List Card)) (cardDBReady : Bool)
    (entry : ParsedEntry) (s1 : Option Card) : Option Card × List String :=
  match s1, cardDBReady, entry.set with
  | none, true, some st =>
      (match lookupCard db entry.name none with
       | some c => (some c, [setMismatchWarning entry.name st c])
       | none => (none, []))
  | s, _, _ => (s, [])

/-- Step 3 of resolution (src/app.js:762-779): if still nothing and the
database is not ready, call the remote API; a synthetic record on success,
the thrown message (logged, and kept as the entry error) on failure.
Returns selection, logged messages, and the entry error so far. -/
def apiFallback (cardDBReady : Bool)
    (remote : String → Option String → RemoteResult) (entry : ParsedEntry)
    (s2 : Option Card) : Option Card × List String × Option String :=
  match s2, cardDBReady with
  | none, false =>
      (match fetchCardFromAPI remote entry.name entry.set with
       | .ok apiCard => (some (syntheticCard apiCard), [], none)
       | .error msg => (none, [msg], some msg))
  | s, _ => (s, [], none)

/-- Step 4 of resolution (src/app.js:781-784): still nothing with a ready
database means a local not-found error. -/
def localNotFound (cardDBReady : Bool) (entry : ParsedEntry)
    (selected : Option Card) (err3 : Option String) :
    List String × Option String :=
  match selected, cardDBReady with
  | none, true =>
      (["Card not found: \"" ++ entry.name ++ "\""],
       some ("Card not found: \"" ++ entry.name ++ "\""))
  | _, _ => ([], err3)

/-- Variant discovery (src/app.js:786-790): all records sharing the
selection's oracle id, degenerating to `[selected]` when the oracle index
yields nothing. -/
def discoverVariants (oracleIndex : Option (String → List Card))
    (selected : Option Card) : List Card :=
  match selected with
  | some c =>
      let vs := getVariants oracleIndex c.o
      if vs.isEmpty then [c] else vs
  | none => []

/-- The body of `loadCards`'s per-entry loop (src/app.js:747-800).
`cardDBReady` and `db` are the two pieces of loader state; `db = none`
models `cardDB === null`.  Step order as in the code: local lookup by
name+set, then `setFallback`, then `apiFallback`, then `localNotFound`,
then variant discovery, and finally the slot is pushed. -/
def resolveEntry (db : Option (String → List Card)) (cardDBReady : Bool)
    (oracleIndex : Option (String → List Card))
    (remote : String → Option String → RemoteResult)
    (entry : ParsedEntry) : ResolveOutput :=
  let s1 := lookupCard db entry.name entry.set
  let step2 := setFallback db cardDBReady entry s1
  let step3 := apiFallback cardDBReady remote entry step2.1
  let selected := step3.1
  let step4 := localNotFound cardDBReady entry selected step3.2.2
  { slot := { name := entry.name
              qty := entry.qty
              oracleId := selected.bind (fun c => c.o)
              selected := selected
              variants := discoverVariants oracleIndex selected
              error := step4.2 }
    warnings := step2.2 ++ step3.2.1 ++ step4.1
    remoteQueried := step2.1.isNone && !cardDBReady }

/-! ## Slot expansion and image acquisition (src/app.js:591-719, 983-1039) -/

def IMG_CDN : String := "https://cards.scryfall.io"

/-- `buildImageUrl` (src/app.js:591-594):
`{IMG_CDN}/{quality}/{face}/{id[0]}/{id[1]}/{id}.{ext}`. -/
def buildImageUrl (id quality face : String) : String :=
  let ext := if quality = "png" then "png" else "jpg"
  IMG_CDN ++ "/" ++ quality ++ "/" ++ face ++ "/" ++
    String.mk (id.toList.take 1) ++ "/" ++
    String.mk ((id.toList.drop 1).take 1) ++ "/" ++ id ++ "." ++ ext

/-- `getImageUrlsForCard` (src/app.js:710-719): front then back for a
double-faced card, front only otherwise. -/
def getImageUrlsForCard (card : Card) (quality : String) : List String :=
  if card.d then
    [buildImageUrl card.id quality "front", buildImageUrl card.id quality "back"]
  else
    [buildImageUrl card.id quality "front"]

/-- The sequential face-download loop inside `generatePreview`
(src/app.js:1009-1012), with `getImageData` modelled as an oracle `fetch`:
the first failure throws out of the loop. -/
def fetchFaces (fetch : String → Except String String) :
    List String → Except String (List String)
  | [] => .ok []
  | url :: rest =>
      match fetch url with
      | .error e => .error e
      | .ok data =>
          match fetchFaces fetch rest with
          | .error e => .error e
          | .ok ds => .ok (data :: ds)

/-- The image-download stage of `generatePreview` (src/app.js:983-1026):
slots without a selection are filtered out; for each remaining slot all its
face images are downloaded, then appended once per copy; a throw anywhere
in a slot's downloads logs `"<name>: <message>"` and moves to the next
slot.  Returns `(allImages, error log)`. -/
def generatePreviewImages (fetch : String → Except String String)
    (quality : String) (slots : List CardSlot) : List String × List String :=
  let validSlots := slots.filter (fun s => s.selected.isSome)
  validSlots.foldl (fun acc slot =>
    match slot.selected with
    | none => acc
    | some card =>
        match fetchFaces fetch (getImageUrlsForCard card quality) with
        | .ok faceDataList =>
            (acc.1 ++ (List.range slot.qty).flatMap (fun _ => faceDataList),
              acc.2)
        | .error msg => (acc.1, acc.2 ++ [slot.name ++ ": " ++ msg]))
    ([], [])

/-- The per-copy face sequence a slot contributes, as the spec words it:
its faces (front first, then back if double-faced), repeated `qty` times,
nothing without a selection. -/
def slotFaceSequence (quality : String) (slot : CardSlot) : List String :=
  match slot.selected with
  | none => []
  | some c => (List.range slot.qty).flatMap
      (fun _ => getImageUrlsForCard c quality)

/-- What a slot actually contributes to `allImages`: its full copy
sequence when every face download succeeds, nothing otherwise. -/
def slotDownloadedImages (fetch : String → Except String String)
    (quality : String) (slot : CardSlot) : List String :=
  match slot.selected with
  | none => []
  | some c =>
      match fetchFaces fetch (getImageUrlsForCard c quality) with
      | .ok ds => (List.range slot.qty).flatMap (fun _ => ds)
      | .error _ => []

/-- The error-log entry a slot contributes: one message when some face
download fails, nothing otherwise. -/
def slotDownloadError (fetch : String → Except String String)
    (quality : String) (slot : CardSlot) : Option String :=
  match slot.selected with
  | none => none
  | some c =>
      match fetchFaces fetch (getImageUrlsForCard c quality) with
      | .ok _ => none
      | .error msg => some (slot.name ++ ": " ++ msg)


/-! ## Concrete fixtures for the expansion and failure-granularity claims -/

/-- A double-faced test card. -/
def dfcTestCard : Card :=
  ⟨"Brisela, Voice of Nightmares", "aaa111", "emn", "15", some "oracle-1", true⟩

/-- A single-faced test card. -/
def plainTestCard : Card :=
  ⟨"Lightning Bolt", "bbb222", "lea", "161", some "oracle-2", false⟩

/-- A slot asking for two copies of the double-faced card. -/
def dfcTestSlot : CardSlot :=
  ⟨"Brisela, Voice of Nightmares", 2, some "oracle-1", some dfcTestCard,
    [dfcTestCard], none⟩

/-- A fetch oracle that fails exactly on the double-faced card's back-face
image and succeeds (returning the URL as the data) on everything else. -/
def failingBackFetch : String → Except String String :=
  fun u => if u = buildImageUrl "aaa111" "png" "back" then
    Except.error "Image load failed" else Except.ok u

/-- A batch of one double-faced slot followed by one single-faced slot. -/
def twoSlotBatch : List CardSlot :=
  [⟨"Brisela, Voice of Nightmares", 1, some "oracle-1", some dfcTestCard,
      [dfcTestCard], none⟩,
   ⟨"Lightning Bolt", 1, some "oracle-2", some plainTestCard,
      [plainTestCard], none⟩]


/-- A single-faced card used as the sole index entry for the resolution
claims. -/
def shockCard : Card := ⟨"Shock", "ddd444", "ons", "215", some "o-shock", false⟩

/-- A single-faced card whose only printing is in set `lea`. -/
def boltCard : Card :=
  ⟨"Lightning Bolt", "ccc333", "lea", "161", some "o-bolt", false⟩

/-- A remote oracle that succeeds on every query. -/
def alwaysOkRemote : String → Option String → RemoteResult :=
  fun nm _ => RemoteResult.ok ⟨nm, "eee555", "mh2", "1", some "o-remote", none⟩

/-- Resolution of a card absent from a loaded index. -/
def c4Output : ResolveOutput :=
  resolveEntry (some (buildByName [shockCard])) true
    (some (buildOracleIndex [shockCard])) alwaysOkRemote ⟨1, "Foo", none⟩

/-- Resolution of a known name with an unknown requested set. -/
def c6OutMismatch : ResolveOutput :=
  resolveEntry (some (buildByName [boltCard])) true
    (some (buildOracleIndex [boltCard])) alwaysOkRemote
    ⟨1, "Lightning Bolt", some "FOO"⟩

/-- Resolution of the same name with its actual set. -/
def c6OutExact : ResolveOutput :=
  resolveEntry (some (buildByName [boltCard])) true
    (some (buildOracleIndex [boltCard])) alwaysOkRemote
    ⟨1, "Lightning Bolt", some "LEA"⟩

/-! ## Helper lemmas -/

lemma mem_takeWhile_range' (p : Nat → Bool)
    (hmono : ∀ a b, a ≤ b → p b = true → p a = true) :
    ∀ (n s i : Nat), i ∈ (List.range' s n).takeWhile p ↔
      s ≤ i ∧ i < s + n ∧ p i = true := by
  intro n
  induction n with
  | zero => intro s i; simp; omega
  | succ n ih =>
      intro s i
      rw [List.range'_succ]
      by_cases hp : p s
      · rw [List.takeWhile_cons_of_pos hp]
        simp only [List.mem_cons, ih (s+1) i]
        constructor
        · rintro (rfl | ⟨h1, h2, h3⟩)
          · exact ⟨le_refl _, by omega, hp⟩
          · exact ⟨by omega, by omega, h3⟩
        · rintro ⟨h1, h2, h3⟩
          rcases Nat.eq_or_lt_of_le h1 with rfl | h
          · exact Or.inl rfl
          · exact Or.inr ⟨by omega, by omega, h3⟩
      · rw [List.takeWhile_cons_of_neg (by simpa using hp)]
        simp only [List.not_mem_nil, false_iff, not_and]
        intro h1 h2 h3
        exact hp (hmono s i h1 h3)

lemma mem_takeWhile_range (p : Nat → Bool)
    (hmono : ∀ a b, a ≤ b → p b = true → p a = true) (k i : Nat) :
    i ∈ (List.range k).takeWhile p ↔ i < k ∧ p i = true := by
  rw [List.range_eq_range', mem_takeWhile_range' p hmono]
  exact ⟨fun ⟨_, h2, h3⟩ => ⟨by omega, h3⟩,
    fun ⟨h1, h3⟩ => ⟨Nat.zero_le _, by omega, h3⟩⟩

lemma takeWhile_range_of_all (p : Nat → Bool) (k : Nat)
    (h : ∀ i, i < k → p i = true) :
    (List.range k).takeWhile p = List.range k := by
  rw [List.takeWhile_eq_self_iff]
  intro x hx
  exact h x (List.mem_range.mp hx)

/-- The canvas backend strokes exactly the PDF backend's segments scaled
uniformly by `s` — for any scale, any mode, and any `(numImages, startIdx)`
pair. -/
lemma cutLines_canvas_eq_scaled_pdf (s : ℚ) (mode : CutMode)
    (numImages startIdx : Nat) :
    drawCutLinesCanvas s mode numImages startIdx =
      (drawCutLinesPDF mode numImages startIdx).map (scaleSeg s) := by
  cases mode with
  | none => simp [drawCutLinesCanvas, drawCutLinesPDF]
  | grid =>
      simp only [drawCutLinesCanvas, drawCutLinesPDF, List.map_append,
        List.map_map]
      refine congrArg₂ _ (List.map_congr_left ?_) (List.map_congr_left ?_) <;>
        intro a _ <;> simp [scaleSeg]
  | corners =>
      simp only [drawCutLinesCanvas, drawCutLinesPDF, List.map_flatMap]
      refine List.flatMap_congr ?_
      intro a _
      simp only [List.map_cons, List.map_nil, scaleSeg]
      ring_nf

/-! ## Claim theorems: geometry and pagination -/

/-- **C1** (grid cut-guide geometry).  For every page with `cardsOnPage` in
`[1, 9]`, the grid segments stroked by `drawCutLinesPDF` are exactly as the
spec describes them (`claimedGridSegments`): with
`filledCols = min(cardsOnPage, 3)`, `filledRows = ceil(cardsOnPage/3)`,
`lastRowCols = cardsOnPage - (filledRows-1)*3`, horizontal line `row`
(`0..filledRows` inclusive) spans columns `[0, filledCols)` except the final
one, which spans `[0, lastRowCols)`, and vertical line `col`
(`0..filledCols` inclusive) spans rows `[0, filledRows)` except columns
beyond `lastRowCols`, which stop one row early.  In particular, for
`cardsOnPage = 7` the final horizontal line (list position 3) spans exactly
one column width and the vertical lines at indices 2 and 3 (list positions
6 and 7) stop at 2 of the 3 row heights. -/
theorem grid_cut_guide_geometry :
    (∀ n : Nat, 1 ≤ n → n ≤ 9 →
      drawCutLinesPDF CutMode.grid n 0 = claimedGridSegments n) ∧
    ((drawCutLinesPDF CutMode.grid 7 0)[3]? = some (hLineSpan 3 1)) ∧
    ((drawCutLinesPDF CutMode.grid 7 0)[6]? = some (vLineSpan 2 2)) ∧
    ((drawCutLinesPDF CutMode.grid 7 0)[7]? = some (vLineSpan 3 2)) := by
  have hgen : ∀ n : Nat, 1 ≤ n → n ≤ 9 →
      drawCutLinesPDF CutMode.grid n 0 = claimedGridSegments n := by
    intro n h1 h9
    simp only [drawCutLinesPDF, claimedGridSegments, CARDS_PER_PAGE, COLS,
      ROWS]
    rw [Nat.sub_zero, Nat.min_eq_left (show n ≤ 3 * 3 by omega)]
    refine congrArg₂ _ (List.map_congr_left ?_) (List.map_congr_left ?_)
    · intro row _
      simp only [hLineSpan, colX, rowY]
      norm_num
    · intro col _
      simp only [vLineSpan, colX, rowY]
      by_cases hc : col ≤ n - (ceilDiv n 3 - 1) * 3
      · rw [if_pos hc, if_neg (by omega)]
        norm_num
      · rw [if_neg hc, if_pos (by omega)]
        norm_num
  refine ⟨hgen, ?_, ?_, ?_⟩ <;>
  · rw [hgen 7 (by norm_num) (by norm_num)]
    simp [claimedGridSegments, ceilDiv, List.range_succ]

/-- Witness for C1 at the concrete input `cardsOnPage = 7`. -/
theorem grid_cut_guide_geometry_witness :
    drawCutLinesPDF CutMode.grid 7 0 = claimedGridSegments 7 :=
  grid_cut_guide_geometry.1 7 (by norm_num) (by norm_num)

/-- **C2** (preview/export geometry agreement).  For every image list
length, every page index and every cut-guide setting, the segments the
canvas preview strokes are exactly the segments the PDF export strokes,
each scaled uniformly by the preview scale factor. -/
theorem preview_export_geometry_identical (mode : CutMode) (numImages p : Nat) :
    drawCutLinesCanvas PREVIEW_SCALE mode numImages (p * CARDS_PER_PAGE) =
      (drawCutLinesPDF mode numImages (p * CARDS_PER_PAGE)).map
        (scaleSeg PREVIEW_SCALE) :=
  cutLines_canvas_eq_scaled_pdf PREVIEW_SCALE mode numImages _

/-- **C3** (pagination).  `pageCount = ceil(N/9)` (characterised
arithmetically, and equal between the two backends); a cell `(row, col)` of
page `p` receives image `idx` iff `row < 3`, `col < 3`,
`idx = p*9 + row*3 + col` and `idx < N` — row-major placement stopping when
the sequence is exhausted — identically in the preview (`drawPage`) and the
export (`generatePDF`); every non-final page holds exactly 9 images; and
for `N = 10`, page 0 holds 9 images and page 1 holds 1. -/
theorem pagination_row_major :
    (∀ N : Nat, N ≤ 9 * renderPreviewPageCount N ∧
      9 * renderPreviewPageCount N < N + 9 ∧
      generatePDFPageCount N = renderPreviewPageCount N) ∧
    (∀ N p row col idx : Nat,
      ((row, col, idx) ∈ drawPagePlacedCells N p ↔
        row < 3 ∧ col < 3 ∧ idx = p * 9 + row * 3 + col ∧ idx < N)) ∧
    (∀ N p row col idx : Nat,
      ((row, col, idx) ∈ generatePDFPlacedCells N p ↔
        row < 3 ∧ col < 3 ∧ idx = p * 9 + row * 3 + col ∧ idx < N)) ∧
    (∀ N p : Nat, (p + 1) * 9 ≤ N → (drawPagePlacedCells N p).length = 9) ∧
    ((drawPagePlacedCells 10 0).length = 9 ∧
      (drawPagePlacedCells 10 1).length = 1 ∧
      renderPreviewPageCount 10 = 2) := by
  refine ⟨fun N => ⟨?_, ?_, rfl⟩, ?_, ?_, ?_, ?_⟩
  · simp only [renderPreviewPageCount, ceilDiv, CARDS_PER_PAGE, COLS, ROWS]
    omega
  · simp only [renderPreviewPageCount, ceilDiv, CARDS_PER_PAGE, COLS, ROWS]
    omega
  · intro N p row col idx
    simp only [drawPagePlacedCells, CARDS_PER_PAGE, COLS, ROWS,
      List.mem_flatMap, List.mem_map, List.mem_range]
    have hmono : ∀ (start : Nat) (a b : Nat), a ≤ b →
        decide (start + b < N) = true → decide (start + a < N) = true := by
      intro start a b hab hb
      simp only [decide_eq_true_eq] at *
      omega
    constructor
    · rintro ⟨r, hr, c, hc, heq⟩
      rw [mem_takeWhile_range _ (hmono _)] at hc
      obtain ⟨hclt, hcp⟩ := hc
      simp only [decide_eq_true_eq] at hcp
      simp only [Prod.mk.injEq] at heq
      obtain ⟨rfl, rfl, rfl⟩ := heq
      exact ⟨hr, hclt, by omega, by omega⟩
    · rintro ⟨hrow, hcol, rfl, hidx⟩
      refine ⟨row, hrow, col, ?_, by simp only [Prod.mk.injEq] <;> omega⟩
      rw [mem_takeWhile_range _ (hmono _)]
      exact ⟨hcol, by simp only [decide_eq_true_eq]; omega⟩
  · intro N p row col idx
    simp only [generatePDFPlacedCells, CARDS_PER_PAGE, COLS, ROWS,
      List.mem_map]
    have hmono : ∀ (a b : Nat), a ≤ b →
        decide (p * (3 * 3) + b < N) = true →
        decide (p * (3 * 3) + a < N) = true := by
      intro a b hab hb
      simp only [decide_eq_true_eq] at *
      omega
    constructor
    · rintro ⟨i, hi, heq⟩
      rw [mem_takeWhile_range _ hmono] at hi
      obtain ⟨hilt, hip⟩ := hi
      simp only [decide_eq_true_eq] at hip
      simp only [Prod.mk.injEq] at heq
      obtain ⟨rfl, rfl, rfl⟩ := heq
      refine ⟨by omega, by omega, by omega, by omega⟩
    · rintro ⟨hrow, hcol, rfl, hidx⟩
      refine ⟨row * 3 + col, ?_, by simp only [Prod.mk.injEq] <;> omega⟩
      rw [mem_takeWhile_range _ hmono]
      exact ⟨by omega, by simp only [decide_eq_true_eq]; omega⟩
  · intro N p h
    have hall : ∀ row : Nat, row < 3 → ((List.range 3).takeWhile
        (fun col => decide (p * (3 * 3) + row * 3 + col < N))) = List.range 3 := by
      intro row hrow
      apply takeWhile_range_of_all
      intro i hi
      simp only [decide_eq_true_eq]
      omega
    simp only [drawPagePlacedCells, CARDS_PER_PAGE, COLS, ROWS]
    rw [List.flatMap_congr (g := fun (row : Nat) => (List.range 3).map
        (fun col => (row, col, p * (3 * 3) + row * 3 + col)))
      (fun row hrow => by rw [hall row (List.mem_range.mp hrow)])]
    simp [List.range_succ]
  · exact ⟨by decide, by decide, by decide⟩

/-- Witness for C3: a full non-final page (here page 2 of a 100-image run)
holds exactly 9 images. -/
theorem pagination_row_major_witness :
    (drawPagePlacedCells 100 2).length = 9 :=
  pagination_row_major.2.2.2.1 100 2 (by norm_num)

/-! ## Parser lemmas -/


lemma dropWhile_eq_self_of_head (p : Char → Bool) (l : List Char)
    (h : ∀ c, l.head? = some c → p c = false) : l.dropWhile p = l := by
  cases l with
  | nil => rfl
  | cons a t =>
      rw [List.dropWhile_cons_of_neg]
      simp [h a rfl]

lemma trimChars_eq_self (cs : List Char)
    (hhead : ∀ c, cs.head? = some c → c.isWhitespace = false)
    (hlast : ∀ c, cs.getLast? = some c → c.isWhitespace = false) :
    trimChars cs = cs := by
  unfold trimChars
  rw [dropWhile_eq_self_of_head _ _ hhead,
    dropWhile_eq_self_of_head _ _ (by simpa using hlast),
    List.reverse_reverse]

lemma takeWhile_append_all (p : Char → Bool) (xs ys : List Char)
    (h : ∀ x ∈ xs, p x = true) :
    (xs ++ ys).takeWhile p = xs ++ ys.takeWhile p := by
  induction xs with
  | nil => simp
  | cons a t ih =>
      simp only [List.cons_append,
        List.takeWhile_cons_of_pos (h a (List.mem_cons_self a t)),
        List.cons.injEq, true_and]
      exact ih (fun x hx => h x (List.mem_cons_of_mem a hx))

lemma dropWhile_append_all (p : Char → Bool) (xs ys : List Char)
    (h : ∀ x ∈ xs, p x = true) :
    (xs ++ ys).dropWhile p = ys.dropWhile p := by
  induction xs with
  | nil => simp
  | cons a t ih =>
      rw [List.cons_append,
        List.dropWhile_cons_of_pos (h a (List.mem_cons_self a t))]
      exact ih (fun x hx => h x (List.mem_cons_of_mem a hx))

lemma bracketTail_cons_ws (c : Char) (h : c.isWhitespace = true)
    (rest : List Char) : bracketTail (c :: rest) = bracketTail rest := by
  unfold bracketTail
  rw [List.dropWhile_cons_of_pos h]

lemma bracketTail_cons_nonws (c : Char) (h : c.isWhitespace = false)
    (h2 : c ≠ '[') (rest : List Char) : bracketTail (c :: rest) = none := by
  unfold bracketTail
  rw [List.dropWhile_cons_of_neg (by simp [h])]
  simp [h2]

lemma bracketTail_append_none (nm sep : List Char)
    (hnb : ∀ c ∈ nm, c ≠ '[')
    (hnw : nm.all Char.isWhitespace = false) :
    bracketTail (nm ++ sep) = none := by
  induction nm with
  | nil => simp at hnw
  | cons c t ih =>
      cases hws : c.isWhitespace with
      | false =>
          rw [List.cons_append]
          exact bracketTail_cons_nonws c hws (hnb c (List.mem_cons_self c t)) _
      | true =>
          rw [List.cons_append, bracketTail_cons_ws c hws]
          refine ih (fun x hx => hnb x (List.mem_cons_of_mem c hx)) ?_
          simpa [hws] using hnw

lemma bracketTail_sep (st : List Char) (hst1 : st ≠ [])
    (hst2 : ∀ c ∈ st, isWordChar c = true) :
    bracketTail (' ' :: ('[' :: (st ++ [']']))) = some st := by
  refine Eq.trans (bracketTail_cons_ws ' ' (by decide) _) ?_
  unfold bracketTail
  rw [show List.dropWhile Char.isWhitespace ('[' :: (st ++ [']'])) =
      '[' :: (st ++ [']']) from List.dropWhile_cons_of_neg (by decide)]
  simp only [if_pos rfl]
  rw [show List.takeWhile isWordChar (st ++ [']']) = st from
      Eq.trans (takeWhile_append_all _ _ _ hst2)
        (by rw [List.takeWhile_cons_of_neg (by decide)]; simp),
    show List.dropWhile isWordChar (st ++ [']']) = [']'] from
      Eq.trans (dropWhile_append_all _ _ _ hst2)
        (List.dropWhile_cons_of_neg (by decide))]
  cases st with
  | nil => exact absurd rfl hst1
  | cons a t => simp

lemma isDigit_not_ws (c : Char) (h : c.isDigit = true) :
    c.isWhitespace = false := by
  cases hw : c.isWhitespace with
  | false => rfl
  | true =>
      exfalso
      simp only [Char.isWhitespace, Bool.or_eq_true, decide_eq_true_eq] at hw
      rcases hw with (((rfl | rfl) | rfl) | rfl) <;> exact absurd h (by decide)

lemma all_ws_false_of_getLast (l : List Char) (c : Char)
    (h : l.getLast? = some c) (hc : c.isWhitespace = false) :
    l.all Char.isWhitespace = false := by
  have hmem : c ∈ l := List.mem_of_mem_getLast? (Option.mem_def.mpr h)
  cases hall : l.all Char.isWhitespace with
  | false => rfl
  | true =>
      have := List.all_eq_true.mp hall c hmem
      rw [hc] at this
      cases this

lemma getLast?_weaken (c : Char) (t : List Char)
    (hlast : ∀ x, (c :: t).getLast? = some x → x.isWhitespace = false) :
    ∀ x, t.getLast? = some x → x.isWhitespace = false := by
  intro x hx
  cases t with
  | nil => simp at hx
  | cons d t' => exact hlast x ((List.getLast?_cons_cons).symm ▸ hx)

lemma lazySplit_append_bracket (nm st : List Char)
    (hnb : ∀ c ∈ nm, c ≠ '[')
    (hlast : ∀ c, nm.getLast? = some c → c.isWhitespace = false)
    (hst1 : st ≠ []) (hst2 : ∀ c ∈ st, isWordChar c = true) :
    lazySplit (nm ++ (' ' :: ('[' :: (st ++ [']'])))) = (nm, some st) := by
  induction nm with
  | nil =>
      rw [List.nil_append]
      simp only [lazySplit]
      rw [bracketTail_sep st hst1 hst2]
  | cons c t ih =>
      rw [List.cons_append]
      simp only [lazySplit]
      have hbt : bracketTail (c :: (t ++ (' ' :: ('[' :: (st ++ [']']))))) =
          none := by
        rw [← List.cons_append]
        refine bracketTail_append_none _ _ hnb ?_
        cases hg : (c :: t).getLast? with
        | none => simp at hg
        | some x => exact all_ws_false_of_getLast _ x hg (hlast x hg)
      rw [hbt]
      have hall : (c :: (t ++ (' ' :: ('[' :: (st ++ [']']))))).all
          Char.isWhitespace = false := by
        simp [List.all_append]
      rw [hall]
      simp only [Bool.false_eq_true, if_false]
      rw [ih (fun x hx => hnb x (List.mem_cons_of_mem c hx))
        (getLast?_weaken c t hlast)]

lemma lazySplit_no_bracket (nm : List Char)
    (hnb : ∀ c ∈ nm, c ≠ '[')
    (hlast : ∀ c, nm.getLast? = some c → c.isWhitespace = false) :
    lazySplit nm = (nm, none) := by
  induction nm with
  | nil => rfl
  | cons c t ih =>
      simp only [lazySplit]
      have hnw : (c :: t).all Char.isWhitespace = false := by
        cases hg : (c :: t).getLast? with
        | none => simp at hg
        | some x => exact all_ws_false_of_getLast _ x hg (hlast x hg)
      have hbt : bracketTail (c :: t) = none := by
        have := bracketTail_append_none (c :: t) [] hnb hnw
        rwa [List.append_nil] at this
      rw [hbt, hnw]
      simp only [Bool.false_eq_true, if_false]
      rw [ih (fun x hx => hnb x (List.mem_cons_of_mem c hx))
        (getLast?_weaken c t hlast)]

lemma toList_mk (l : List Char) : (String.mk l).toList = l := rfl

lemma getLast?_append_of_ne (xs ys : List Char) (h : ys ≠ []) :
    (xs ++ ys).getLast? = ys.getLast? := by
  rw [List.getLast?_append]
  cases hy : ys.getLast? with
  | none => exact absurd (List.getLast?_eq_none_iff.mp hy) h
  | some y => rfl

lemma getLast?_cons_of_ne (a : Char) (l : List Char) (h : l ≠ []) :
    (a :: l).getLast? = l.getLast? := by
  cases l with
  | nil => exact absurd rfl h
  | cons b t => exact List.getLast?_cons_cons

lemma head?_append_of_ne (xs ys : List Char) (h : xs ≠ []) :
    (xs ++ ys).head? = xs.head? := by
  cases xs with
  | nil => exact absurd rfl h
  | cons a t => rfl

lemma parseLine_qty_set (ds nm st : List Char)
    (hds1 : ds ≠ []) (hds2 : ∀ c ∈ ds, c.isDigit = true)
    (hnm1 : nm ≠ []) (hnb : ∀ c ∈ nm, c ≠ '[')
    (hhead : ∀ c, nm.head? = some c → c.isWhitespace = false)
    (hlast : ∀ c, nm.getLast? = some c → c.isWhitespace = false)
    (hst1 : st ≠ []) (hst2 : ∀ c ∈ st, isWordChar c = true) :
    parseLine
        (String.mk (ds ++ (' ' :: (nm ++ (' ' :: ('[' :: (st ++ [']'])))))))
      = some ⟨if natFromDigits ds = 0 then 1 else natFromDigits ds,
          String.mk nm, some (jsToUpper (String.mk st))⟩ := by
  have hdnw : ∀ c ∈ ds, c.isWhitespace = false :=
    fun c hc => isDigit_not_ws c (hds2 c hc)
  have htrim : trimChars
      (ds ++ (' ' :: (nm ++ (' ' :: ('[' :: (st ++ [']'])))))) =
      ds ++ (' ' :: (nm ++ (' ' :: ('[' :: (st ++ [']']))))) := by
    refine trimChars_eq_self _ ?_ ?_
    · intro c hc
      rw [head?_append_of_ne _ _ hds1] at hc
      cases ds with
      | nil => exact absurd rfl hds1
      | cons d t =>
          injection hc with h2
          exact h2 ▸ hdnw d (List.mem_cons_self d t)
    · intro c hc
      rw [getLast?_append_of_ne _ _ (by simp),
        getLast?_cons_of_ne _ _ (by simp),
        getLast?_append_of_ne _ _ (by simp),
        getLast?_cons_of_ne _ _ (by simp),
        getLast?_cons_of_ne _ _ (by simp),
        getLast?_append_of_ne _ _ (by simp)] at hc
      injection hc with h2
      exact h2 ▸ rfl
  have hdigits : (ds ++ (' ' :: (nm ++ (' ' :: ('[' :: (st ++ [']'])))))).takeWhile
      Char.isDigit = ds := by
    rw [takeWhile_append_all _ _ _ hds2,
      List.takeWhile_cons_of_neg (by decide), List.append_nil]
  have hdrop : (ds ++ (' ' :: (nm ++ (' ' :: ('[' :: (st ++ [']'])))))).dropWhile
      Char.isDigit = ' ' :: (nm ++ (' ' :: ('[' :: (st ++ [']'])))) := by
    rw [dropWhile_append_all _ _ _ hds2,
      List.dropWhile_cons_of_neg (by decide)]
  have hdropws : (' ' :: (nm ++ (' ' :: ('[' :: (st ++ [']']))))).dropWhile
      Char.isWhitespace = nm ++ (' ' :: ('[' :: (st ++ [']']))) := by
    rw [List.dropWhile_cons_of_pos (by decide)]
    refine dropWhile_eq_self_of_head _ _ ?_
    intro c hc
    rw [head?_append_of_ne _ _ hnm1] at hc
    exact hhead c hc
  have hsplit := lazySplit_append_bracket nm st hnb hlast hst1 hst2
  have htrimnm : trimChars nm = nm := by
    refine trimChars_eq_self _ hhead hlast
  simp only [parseLine, toList_mk, htrim, hdigits, hdrop, hdropws, hsplit,
    htrimnm]
  have hne : nm.isEmpty = false := by
    cases nm with
    | nil => exact absurd rfl hnm1
    | cons a t => rfl
  have hde : ds.isEmpty = false := by
    cases ds with
    | nil => exact absurd rfl hds1
    | cons a t => rfl
  rw [hne, hde]
  simp

lemma parseLine_qty_only (ds nm : List Char)
    (hds1 : ds ≠ []) (hds2 : ∀ c ∈ ds, c.isDigit = true)
    (hnm1 : nm ≠ []) (hnb : ∀ c ∈ nm, c ≠ '[')
    (hhead : ∀ c, nm.head? = some c → c.isWhitespace = false)
    (hlast : ∀ c, nm.getLast? = some c → c.isWhitespace = false) :
    parseLine (String.mk (ds ++ (' ' :: nm)))
      = some ⟨if natFromDigits ds = 0 then 1 else natFromDigits ds,
          String.mk nm, none⟩ := by
  have hdnw : ∀ c ∈ ds, c.isWhitespace = false :=
    fun c hc => isDigit_not_ws c (hds2 c hc)
  have htrim : trimChars (ds ++ (' ' :: nm)) = ds ++ (' ' :: nm) := by
    refine trimChars_eq_self _ ?_ ?_
    · intro c hc
      rw [head?_append_of_ne _ _ hds1] at hc
      cases ds with
      | nil => exact absurd rfl hds1
      | cons d t =>
          injection hc with h2
          exact h2 ▸ hdnw d (List.mem_cons_self d t)
    · intro c hc
      rw [getLast?_append_of_ne _ _ (by simp),
        getLast?_cons_of_ne _ _ hnm1] at hc
      exact hlast c hc
  have hdigits : (ds ++ (' ' :: nm)).takeWhile Char.isDigit = ds := by
    rw [takeWhile_append_all _ _ _ hds2,
      List.takeWhile_cons_of_neg (by decide), List.append_nil]
  have hdrop : (ds ++ (' ' :: nm)).dropWhile Char.isDigit = ' ' :: nm := by
    rw [dropWhile_append_all _ _ _ hds2,
      List.dropWhile_cons_of_neg (by decide)]
  have hdropws : (' ' :: nm).dropWhile Char.isWhitespace = nm := by
    rw [List.dropWhile_cons_of_pos (by decide)]
    exact dropWhile_eq_self_of_head _ _ hhead
  have hsplit := lazySplit_no_bracket nm hnb hlast
  have htrimnm : trimChars nm = nm := trimChars_eq_self _ hhead hlast
  simp only [parseLine, toList_mk, htrim, hdigits, hdrop, hdropws, hsplit,
    htrimnm]
  have hne : nm.isEmpty = false := by
    cases nm with
    | nil => exact absurd rfl hnm1
    | cons a t => rfl
  have hde : ds.isEmpty = false := by
    cases ds with
    | nil => exact absurd rfl hds1
    | cons a t => rfl
  rw [hne, hde]
  simp

lemma parseLine_name_set (nm st : List Char)
    (hnm1 : nm ≠ []) (hnb : ∀ c ∈ nm, c ≠ '[')
    (hhead : ∀ c, nm.head? = some c → c.isWhitespace = false)
    (hheadd : ∀ c, nm.head? = some c → c.isDigit = false)
    (hlast : ∀ c, nm.getLast? = some c → c.isWhitespace = false)
    (hst1 : st ≠ []) (hst2 : ∀ c ∈ st, isWordChar c = true) :
    parseLine (String.mk (nm ++ (' ' :: ('[' :: (st ++ [']'])))))
      = some ⟨1, String.mk nm, some (jsToUpper (String.mk st))⟩ := by
  have htrim : trimChars (nm ++ (' ' :: ('[' :: (st ++ [']'])))) =
      nm ++ (' ' :: ('[' :: (st ++ [']']))) := by
    refine trimChars_eq_self _ ?_ ?_
    · intro c hc
      rw [head?_append_of_ne _ _ hnm1] at hc
      exact hhead c hc
    · intro c hc
      rw [getLast?_append_of_ne _ _ (by simp),
        getLast?_cons_of_ne _ _ (by simp),
        getLast?_cons_of_ne _ _ (by simp),
        getLast?_append_of_ne _ _ (by simp)] at hc
      injection hc with h2
      exact h2 ▸ rfl
  have hdigits : (nm ++ (' ' :: ('[' :: (st ++ [']'])))).takeWhile
      Char.isDigit = [] := by
    cases nm with
    | nil => exact absurd rfl hnm1
    | cons n0 t =>
        rw [List.cons_append, List.takeWhile_cons_of_neg]
        simp [hheadd n0 rfl]
  have hdrop : (nm ++ (' ' :: ('[' :: (st ++ [']'])))).dropWhile
      Char.isDigit = nm ++ (' ' :: ('[' :: (st ++ [']']))) := by
    refine dropWhile_eq_self_of_head _ _ ?_
    intro c hc
    rw [head?_append_of_ne _ _ hnm1] at hc
    exact hheadd c hc
  have hdropws : (nm ++ (' ' :: ('[' :: (st ++ [']'])))).dropWhile
      Char.isWhitespace = nm ++ (' ' :: ('[' :: (st ++ [']']))) := by
    refine dropWhile_eq_self_of_head _ _ ?_
    intro c hc
    rw [head?_append_of_ne _ _ hnm1] at hc
    exact hhead c hc
  have hsplit := lazySplit_append_bracket nm st hnb hlast hst1 hst2
  have htrimnm : trimChars nm = nm := trimChars_eq_self _ hhead hlast
  simp only [parseLine, toList_mk, htrim, hdigits, hdrop, hdropws, hsplit,
    htrimnm]
  have hne : nm.isEmpty = false := by
    cases nm with
    | nil => exact absurd rfl hnm1
    | cons a t => rfl
  rw [hne]
  simp

lemma parseLine_name_only (nm : List Char)
    (hnm1 : nm ≠ []) (hnb : ∀ c ∈ nm, c ≠ '[')
    (hhead : ∀ c, nm.head? = some c → c.isWhitespace = false)
    (hheadd : ∀ c, nm.head? = some c → c.isDigit = false)
    (hlast : ∀ c, nm.getLast? = some c → c.isWhitespace = false) :
    parseLine (String.mk nm) = some ⟨1, String.mk nm, none⟩ := by
  have htrim : trimChars nm = nm := trimChars_eq_self _ hhead hlast
  have hdigits : nm.takeWhile Char.isDigit = [] := by
    cases nm with
    | nil => exact absurd rfl hnm1
    | cons n0 t =>
        rw [List.takeWhile_cons_of_neg]
        simp [hheadd n0 rfl]
  have hdrop : nm.dropWhile Char.isDigit = nm := by
    refine dropWhile_eq_self_of_head _ _ hheadd
  have hdropws : nm.dropWhile Char.isWhitespace = nm :=
    dropWhile_eq_self_of_head _ _ hhead
  have hsplit := lazySplit_no_bracket nm hnb hlast
  simp only [parseLine, toList_mk, htrim, hdigits, hdrop, hdropws, hsplit]
  have hne : nm.isEmpty = false := by
    cases nm with
    | nil => exact absurd rfl hnm1
    | cons a t => rfl
  rw [hne]
  simp

/-! ## Claim theorems: input parsing -/

/-- **C7** (input parsing).  For every valid line of the form
`<qty> <name> [<SET>]` — a nonempty digit quantity with positive value, a
nonempty bracket-free name with no surrounding whitespace (and, when the
quantity is absent, not starting with a digit), and a nonempty alphanumeric
set code, each part optional as stated — the parser recovers exactly the
quantity (default 1 when absent), the trimmed name, and the uppercased set
code.  Concretely, `"4 Lightning Bolt [2XM]"` parses to quantity 4, name
`"Lightning Bolt"`, set `"2XM"`; `"Lightning Bolt"` parses to quantity 1,
name `"Lightning Bolt"`, no set; and blank lines or lines with no name
after stripping the optional integer and bracket are dropped silently. -/
theorem input_parsing_valid_lines :
    (∀ ds nm st : List Char,
      ds ≠ [] → (∀ c ∈ ds, c.isDigit = true) → 0 < natFromDigits ds →
      nm ≠ [] → (∀ c ∈ nm, c ≠ '[') →
      (∀ c, nm.head? = some c → c.isWhitespace = false) →
      (∀ c, nm.getLast? = some c → c.isWhitespace = false) →
      st ≠ [] → (∀ c ∈ st, isWordChar c = true) →
      parseLine
          (String.mk (ds ++ (' ' :: (nm ++ (' ' :: ('[' :: (st ++ [']'])))))))
        = some ⟨natFromDigits ds, String.mk nm,
            some (jsToUpper (String.mk st))⟩) ∧
    (∀ ds nm : List Char,
      ds ≠ [] → (∀ c ∈ ds, c.isDigit = true) → 0 < natFromDigits ds →
      nm ≠ [] → (∀ c ∈ nm, c ≠ '[') →
      (∀ c, nm.head? = some c → c.isWhitespace = false) →
      (∀ c, nm.getLast? = some c → c.isWhitespace = false) →
      parseLine (String.mk (ds ++ (' ' :: nm)))
        = some ⟨natFromDigits ds, String.mk nm, none⟩) ∧
    (∀ nm st : List Char,
      nm ≠ [] → (∀ c ∈ nm, c ≠ '[') →
      (∀ c, nm.head? = some c → c.isWhitespace = false) →
      (∀ c, nm.head? = some c → c.isDigit = false) →
      (∀ c, nm.getLast? = some c → c.isWhitespace = false) →
      st ≠ [] → (∀ c ∈ st, isWordChar c = true) →
      parseLine (String.mk (nm ++ (' ' :: ('[' :: (st ++ [']'])))))
        = some ⟨1, String.mk nm, some (jsToUpper (String.mk st))⟩) ∧
    (∀ nm : List Char,
      nm ≠ [] → (∀ c ∈ nm, c ≠ '[') →
      (∀ c, nm.head? = some c → c.isWhitespace = false) →
      (∀ c, nm.head? = some c → c.isDigit = false) →
      (∀ c, nm.getLast? = some c → c.isWhitespace = false) →
      parseLine (String.mk nm) = some ⟨1, String.mk nm, none⟩) ∧
    (parseInput "4 Lightning Bolt [2XM]" =
      [⟨4, "Lightning Bolt", some "2XM"⟩]) ∧
    (parseInput "Lightning Bolt" = [⟨1, "Lightning Bolt", none⟩]) ∧
    (parseInput "\n   \n[2XM]\n42\n" = []) := by
  refine ⟨?_, ?_, parseLine_name_set, parseLine_name_only,
    by decide, by decide, by decide⟩
  · intro ds nm st hds1 hds2 hq hnm1 hnb hhead hlast hst1 hst2
    rw [parseLine_qty_set ds nm st hds1 hds2 hnm1 hnb hhead hlast hst1 hst2,
      if_neg (by omega)]
  · intro ds nm hds1 hds2 hq hnm1 hnb hhead hlast
    rw [parseLine_qty_only ds nm hds1 hds2 hnm1 hnb hhead hlast,
      if_neg (by omega)]

/-- Witness for C7: the general valid-line statement applied to the
concrete line `"7 Bolt [2xm]"`. -/
theorem input_parsing_valid_lines_witness :
    parseLine "7 Bolt [2xm]" = some ⟨7, "Bolt", some "2XM"⟩ :=
  input_parsing_valid_lines.1 ['7'] ['B', 'o', 'l', 't'] ['2', 'x', 'm']
    (by decide) (by decide) (by decide) (by decide) (by decide) (by decide)
    (by decide) (by decide) (by decide)

/-- **C10** (implicit: quantity is always at least 1).  Every entry the
parser produces has `qty ≥ 1`, and a line with an explicit leading zero
quantity is not dropped and not given quantity 0: `"0 Lightning Bolt"`
parses to quantity 1, because `parseInt(m[1], 10) || 1` coerces 0 to the
default 1. -/
theorem parsed_quantity_positive :
    (∀ (text : String) (e : ParsedEntry), e ∈ parseInput text → 1 ≤ e.qty) ∧
    parseInput "0 Lightning Bolt" = [⟨1, "Lightning Bolt", none⟩] := by
  constructor
  · intro text e he
    simp only [parseInput, List.mem_filterMap] at he
    obtain ⟨line, _, hp⟩ := he
    simp only [parseLine] at hp
    split at hp
    · cases hp
    · injection hp with h2
      subst h2
      simp only []
      split
      · omega
      · split <;> omega
  · decide

/-- Witness for C10: the positivity statement applied at a concrete parse
result of the text `"0 Lightning Bolt"`. -/
theorem parsed_quantity_positive_witness :
    1 ≤ (⟨1, "Lightning Bolt", none⟩ : ParsedEntry).qty :=
  parsed_quantity_positive.1 "0 Lightning Bolt" ⟨1, "Lightning Bolt", none⟩
    (by decide)

/-! ## Claim theorems: slot expansion and image acquisition -/

lemma fetchFaces_ok (urls : List String) :
    fetchFaces (fun u => Except.ok u) urls = Except.ok urls := by
  induction urls with
  | nil => rfl
  | cons u rest ih => simp [fetchFaces, ih]

lemma generatePreviewImages_spec
    (fetch : String → Except String String) (quality : String)
    (slots : List CardSlot) :
    generatePreviewImages fetch quality slots =
      (slots.flatMap (slotDownloadedImages fetch quality),
       slots.filterMap (slotDownloadError fetch quality)) := by
  suffices h : ∀ (l : List CardSlot) (acc : List String × List String),
      ((l.filter (fun s => s.selected.isSome)).foldl
        (fun acc slot =>
          match slot.selected with
          | none => acc
          | some card =>
              match fetchFaces fetch (getImageUrlsForCard card quality) with
              | .ok faceDataList =>
                  (acc.1 ++ (List.range slot.qty).flatMap
                    (fun _ => faceDataList), acc.2)
              | .error msg =>
                  (acc.1, acc.2 ++ [slot.name ++ ": " ++ msg])) acc)
        = (acc.1 ++ l.flatMap (slotDownloadedImages fetch quality),
           acc.2 ++ l.filterMap (slotDownloadError fetch quality)) by
    have h2 := h slots ([], [])
    simpa [generatePreviewImages] using h2
  intro l
  induction l with
  | nil => intro acc; simp
  | cons s rest ih =>
      intro acc
      cases hsel : s.selected with
      | none =>
          simp only [List.filter_cons, hsel, Option.isSome_none,
            Bool.false_eq_true, if_false, List.flatMap_cons,
            List.filterMap_cons, slotDownloadedImages, slotDownloadError]
          rw [ih acc]
          simp
      | some card =>
          simp only [List.filter_cons, hsel, Option.isSome_some, if_true,
            List.foldl_cons, List.flatMap_cons, List.filterMap_cons,
            slotDownloadedImages, slotDownloadError]
          cases hf : fetchFaces fetch (getImageUrlsForCard card quality) with
          | ok ds =>
              rw [ih]
              simp [List.append_assoc]
          | error msg =>
              rw [ih]
              simp [List.append_assoc]

/-- **C5** (slot expansion).  With every image fetch succeeding (returning
its URL), the flat image sequence is the concatenation, in slot order, of
each selected slot's per-copy face sequence repeated `qty` times (slots
without a selection contribute nothing); for the double-faced test card
with quantity 2 the sequence is `[front, back, front, back]`. -/
theorem slot_expansion_order :
    (∀ (slots : List CardSlot) (quality : String),
      (generatePreviewImages (fun u => Except.ok u) quality slots).1 =
        slots.flatMap (slotFaceSequence quality)) ∧
    ((generatePreviewImages (fun u => Except.ok u) "png" [dfcTestSlot]).1 =
      [buildImageUrl "aaa111" "png" "front", buildImageUrl "aaa111" "png" "back",
       buildImageUrl "aaa111" "png" "front", buildImageUrl "aaa111" "png" "back"]) := by
  constructor
  · intro slots quality
    rw [generatePreviewImages_spec]
    refine List.flatMap_congr ?_
    intro s _
    simp only [slotDownloadedImages, slotFaceSequence]
    cases s.selected with
    | none => rfl
    | some c => simp [fetchFaces_ok]
  · decide

/-- Counterexample to **C9** as stated: in `twoSlotBatch` the back face of
the first (double-faced) slot fails to fetch; the front face of that same
slot fetches fine and is among the batch's image requests, yet it does not
appear in the output — the whole slot is skipped, not just the failing
request.  The second slot still contributes, and the failure is logged. -/
theorem image_failure_granularity_counterexample :
    (failingBackFetch (buildImageUrl "aaa111" "png" "front")).toOption =
      some (buildImageUrl "aaa111" "png" "front") ∧
    buildImageUrl "aaa111" "png" "front" ∈
      twoSlotBatch.flatMap (slotFaceSequence "png") ∧
    buildImageUrl "aaa111" "png" "front" ∉
      (generatePreviewImages failingBackFetch "png" twoSlotBatch).1 ∧
    (generatePreviewImages failingBackFetch "png" twoSlotBatch).1 =
      [buildImageUrl "bbb222" "png" "front"] ∧
    (generatePreviewImages failingBackFetch "png" twoSlotBatch).2 =
      ["Brisela, Voice of Nightmares: Image load failed"] := by decide

/-- **C9** (amended: image-failure granularity is per slot, not per
request).  The download stage decomposes per slot: each slot contributes
its full copy sequence when all its face downloads succeed and nothing at
all when any face fails, with one log message per failing slot; a slot's
failure leaves every other slot's contribution unchanged and never aborts
the batch. -/
theorem image_failure_per_slot :
    (∀ (fetch : String → Except String String) (quality : String)
      (slots : List CardSlot),
      generatePreviewImages fetch quality slots =
        (slots.flatMap (slotDownloadedImages fetch quality),
         slots.filterMap (slotDownloadError fetch quality))) ∧
    (∀ (fetch : String → Except String String) (quality : String)
      (s : CardSlot) (rest : List CardSlot),
      (generatePreviewImages fetch quality (s :: rest)).1 =
        slotDownloadedImages fetch quality s ++
          (generatePreviewImages fetch quality rest).1) := by
  refine ⟨generatePreviewImages_spec, ?_⟩
  intro fetch quality s rest
  rw [generatePreviewImages_spec, generatePreviewImages_spec]
  simp

/-! ## Claim theorems: resolution and index lookup -/

/-- Counterexample to **C4** as stated: here the index is loaded and the
card `"Foo"` is entirely absent from it, yet the remote lookup is NOT
queried (even though it would succeed); the entry just gets a local
"Card not found" error. -/
theorem remote_fallback_counterexample :
    lookupCard (some (buildByName [shockCard])) "Foo" none = none ∧
    c4Output.remoteQueried = false ∧
    c4Output.slot.selected = none ∧
    c4Output.slot.error = some "Card not found: \"Foo\"" ∧
    alwaysOkRemote "Foo" none =
      RemoteResult.ok ⟨"Foo", "eee555", "mh2", "1", some "o-remote", none⟩ := by
  decide

lemma setFallback_some (db ready entry c) :
    setFallback db ready entry (some c) = (some c, []) := rfl

lemma setFallback_not_ready (db entry s1) :
    setFallback db false entry s1 = (s1, []) := by
  cases s1 <;> rfl

lemma apiFallback_some (ready remote entry c) :
    apiFallback ready remote entry (some c) = (some c, [], none) := rfl

lemma apiFallback_ready (remote entry s2) :
    apiFallback true remote entry s2 = (s2, [], none) := by
  cases s2 <;> rfl

lemma localNotFound_not_ready (entry s e3) :
    localNotFound false entry s e3 = ([], e3) := by
  cases s <;> rfl

/-- **C4** (amended: the remote fallback runs only when the index is not
loaded).  With a loaded index the remote service is never queried.  When
the index is not loaded and the local lookup found nothing, the remote is
queried: on success the slot holds the synthesized record (whose
double-faced flag `syntheticCard` derives from the response's per-face
image data) with no error; on failure the entry error is the service's
`details` message, or the generic not-found message when the service gives
none, and that message is logged. -/
theorem remote_fallback_only_when_db_unready :
    (∀ (db : Option (String → List Card))
      (oi : Option (String → List Card))
      (remote : String → Option String → RemoteResult) (entry : ParsedEntry),
      (resolveEntry db true oi remote entry).remoteQueried = false) ∧
    (∀ (db : Option (String → List Card))
      (oi : Option (String → List Card))
      (remote : String → Option String → RemoteResult) (entry : ParsedEntry),
      lookupCard db entry.name entry.set = none →
      (resolveEntry db false oi remote entry).remoteQueried = true ∧
      (match remote entry.name entry.set with
       | RemoteResult.ok c =>
           (resolveEntry db false oi remote entry).slot.selected =
             some (syntheticCard c) ∧
           (resolveEntry db false oi remote entry).slot.error = none ∧
           (resolveEntry db false oi remote entry).warnings = []
       | RemoteResult.err details =>
           (resolveEntry db false oi remote entry).slot.selected = none ∧
           (resolveEntry db false oi remote entry).slot.error =
             some (details.getD (notFoundMessage entry.name entry.set)) ∧
           (resolveEntry db false oi remote entry).warnings =
             [details.getD (notFoundMessage entry.name entry.set)])) := by
  constructor
  · intro db oi remote entry
    simp [resolveEntry]
  · intro db oi remote entry h1
    simp only [resolveEntry, h1, setFallback_not_ready, apiFallback,
      fetchCardFromAPI]
    cases hr : remote entry.name entry.set with
    | ok c => simp [localNotFound_not_ready]
    | err details => simp [localNotFound_not_ready]

/-- Counterexample to **C6**'s final clause: after the set-mismatch
fallback the resulting slot is IDENTICAL to the slot of an unqualified
success (`error = none` in both); the substitution is recorded only in the
session warning log. -/
theorem set_mismatch_slot_counterexample :
    c6OutMismatch.slot = c6OutExact.slot ∧
    c6OutMismatch.slot.error = none ∧
    c6OutMismatch.slot.selected = some boltCard ∧
    c6OutMismatch.warnings =
      ["\"Lightning Bolt\" not found in set [FOO], using LEA"] ∧
    c6OutExact.warnings = [] := by decide

/-- **C6** (amended: the warning lives in the log, not on the slot).  When
the name resolves but the requested set does not, resolution selects the
name-only record and logs exactly one warning naming the requested set and
the substituted one; the slot itself carries no error, so the set intent
survives only in the diagnostic log (which stays empty on an unqualified
success, as the counterexample shows). -/
theorem set_mismatch_warning_in_log :
    ∀ (db : String → List Card) (oi : Option (String → List Card))
      (remote : String → Option String → RemoteResult) (entry : ParsedEntry)
      (stc : String) (r : Card),
      entry.set = some stc →
      lookupCard (some db) entry.name entry.set = none →
      lookupCard (some db) entry.name none = some r →
      (resolveEntry (some db) true oi remote entry).slot.selected = some r ∧
      (resolveEntry (some db) true oi remote entry).slot.error = none ∧
      (resolveEntry (some db) true oi remote entry).warnings =
        [setMismatchWarning entry.name stc r] ∧
      (resolveEntry (some db) true oi remote entry).remoteQueried = false := by
  intro db oi remote entry stc r hset h1 h2
  rw [hset] at h1
  simp only [resolveEntry, hset, setFallback, h1, h2, apiFallback_some,
    localNotFound]
  simp

lemma find?_congr_mem {α : Type} (p q : α → Bool) (l : List α)
    (h : ∀ a ∈ l, p a = q a) : l.find? p = l.find? q := by
  induction l with
  | nil => rfl
  | cons a t ih =>
      rw [List.find?_cons, List.find?_cons, h a (List.mem_cons_self a t),
        ih (fun x hx => h x (List.mem_cons_of_mem a hx))]

lemma buildByName_filter (cards : List Card) (k : String) :
    buildByName cards k = cards.filter (fun c => jsToLower c.n = k) := by
  suffices h : ∀ (l : List Card) (m : String → List Card) (k : String),
      (l.foldl (fun db card =>
        let key := jsToLower card.n
        fun q => if q = key then db q ++ [card] else db q) m) k =
      m k ++ l.filter (fun c => jsToLower c.n = k) by
    have h2 := h cards (fun _ => []) k
    simpa [buildByName] using h2
  intro l
  induction l with
  | nil => intro m k; simp
  | cons c rest ih =>
      intro m k
      rw [List.foldl_cons, ih, List.filter_cons]
      by_cases hk : k = jsToLower c.n
      · rw [if_pos hk]
        have : (jsToLower c.n = k) = True := by simp [hk.symm]
        simp [hk, List.append_assoc]
      · rw [if_neg hk]
        have hne : ¬(jsToLower c.n = k) := fun hh => hk hh.symm
        simp [hne]

/-- **C8** (index lookup by name).  Lookup depends on the queried name only
through its lowercasing (case-insensitive exact match); without a set code
it returns the first record of the name bucket in dataset order; with a set
code it returns the first bucket record whose stored set code equals the
lowercased query — any returned record's set code equals it exactly, so the
call never falls back to another set — and on a dataset whose stored set
codes are lowercase (as the Scryfall-derived `data/cards.json` is) this is
precisely case-insensitive set matching. -/
theorem index_lookup_by_name :
    (∀ (cards : List Card) (name1 name2 : String) (set : Option String),
      jsToLower name1 = jsToLower name2 →
      lookupCard (some (buildByName cards)) name1 set =
        lookupCard (some (buildByName cards)) name2 set) ∧
    (∀ (cards : List Card) (name : String),
      lookupCard (some (buildByName cards)) name none =
        (cards.filter (fun c => jsToLower c.n = jsToLower name)).head?) ∧
    (∀ (cards : List Card) (name s : String),
      lookupCard (some (buildByName cards)) name (some s) =
        (cards.filter (fun c => jsToLower c.n = jsToLower name)).find?
          (fun c => c.s = jsToLower s)) ∧
    (∀ (cards : List Card) (name s : String) (r : Card),
      lookupCard (some (buildByName cards)) name (some s) = some r →
      r ∈ cards ∧ jsToLower r.n = jsToLower name ∧ r.s = jsToLower s) ∧
    (∀ (cards : List Card) (name s : String),
      (∀ r ∈ cards, jsToLower r.s = r.s) →
      lookupCard (some (buildByName cards)) name (some s) =
        (cards.filter (fun c => jsToLower c.n = jsToLower name)).find?
          (fun c => jsToLower c.s = jsToLower s)) := by
  have hset : ∀ (cards : List Card) (name s : String),
      lookupCard (some (buildByName cards)) name (some s) =
        (cards.filter (fun c => jsToLower c.n = jsToLower name)).find?
          (fun c => c.s = jsToLower s) := by
    intro cards name s
    simp only [lookupCard, buildByName_filter]
    cases hb : cards.filter (fun c => jsToLower c.n = jsToLower name) with
    | nil => simp
    | cons a t => simp
  have hnone : ∀ (cards : List Card) (name : String),
      lookupCard (some (buildByName cards)) name none =
        (cards.filter (fun c => jsToLower c.n = jsToLower name)).head? := by
    intro cards name
    simp only [lookupCard, buildByName_filter]
    cases hb : cards.filter (fun c => jsToLower c.n = jsToLower name) with
    | nil => simp
    | cons a t => simp
  refine ⟨?_, hnone, hset, ?_, ?_⟩
  · intro cards name1 name2 set h
    cases set with
    | none => rw [hnone, hnone, h]
    | some s => rw [hset, hset, h]
  · intro cards name s r h
    rw [hset] at h
    have hp := List.find?_some h
    have hm := List.mem_of_find?_eq_some h
    rw [List.mem_filter] at hm
    refine ⟨hm.1, by simpa using hm.2, by simpa using hp⟩
  · intro cards name s hlow
    rw [hset]
    apply find?_congr_mem
    intro a ha
    rw [List.mem_filter] at ha
    rw [hlow a ha.1]

/-- Witness for the amended C4 at a concrete unloaded-index resolution. -/
theorem remote_fallback_only_when_db_unready_witness :
    (resolveEntry none false none alwaysOkRemote
      ⟨1, "Foo", none⟩).remoteQueried = true :=
  (remote_fallback_only_when_db_unready.2 none none alwaysOkRemote
    ⟨1, "Foo", none⟩ rfl).1

/-- Witness for the amended C6 at the concrete set-mismatch fixture. -/
theorem set_mismatch_warning_in_log_witness :
    c6OutMismatch.slot.selected = some boltCard ∧
    c6OutMismatch.slot.error = none ∧
    c6OutMismatch.warnings =
      [setMismatchWarning "Lightning Bolt" "FOO" boltCard] ∧
    c6OutMismatch.remoteQueried = false :=
  set_mismatch_warning_in_log (buildByName [boltCard])
    (some (buildOracleIndex [boltCard])) alwaysOkRemote
    ⟨1, "Lightning Bolt", some "FOO"⟩ "FOO" boltCard rfl (by decide)
    (by decide)

/-- Witness for C8: set-code matching at a concrete bucket is
case-insensitive. -/
theorem index_lookup_by_name_witness :
    lookupCard (some (buildByName [boltCard])) "LIGHTNING BOLT"
      (some "Lea") = some boltCard :=
  Eq.trans
    (index_lookup_by_name.2.2.2.2 [boltCard] "LIGHTNING BOLT" "Lea"
      (by decide))
    (by decide)

end ProxPrint
